import Mathlib

set_option maxRecDepth 100000

/-!
Shallow embedding of the pingme chunk codec (src/chunk_type.rs, src/chunk.rs).

Bytes are modelled as `Nat` (with the u8 range `< 256` carried as hypotheses
where it matters), u32 arithmetic is `Nat` with explicit `% 2 ^ 32`, fallible
Rust functions return `Except`, and functions that can panic in Rust return
`Option` (`none` models a panic, `some r` a normal return of `r`).
-/

instance {ε α : Type} [DecidableEq ε] [DecidableEq α] : DecidableEq (Except ε α) :=
  fun a b =>
    match a, b with
    | .ok x, .ok y =>
      if h : x = y then isTrue (congrArg Except.ok h)
      else isFalse (fun hc => h (Except.ok.inj hc))
    | .error x, .error y =>
      if h : x = y then isTrue (congrArg Except.error h)
      else isFalse (fun hc => h (Except.error.inj hc))
    | .ok _, .error _ => isFalse (fun hc => Except.noConfusion hc)
    | .error _, .ok _ => isFalse (fun hc => Except.noConfusion hc)

/-- Models Rust u8::is_ascii_uppercase: the byte is in 65..=90 (A..=Z). -/
def isAsciiUppercase (b : Nat) : Bool :=
  65 ≤ b && b ≤ 90

/-- Models Rust u8::is_ascii_lowercase: the byte is in 97..=122 (a..=z). -/
def isAsciiLowercase (b : Nat) : Bool :=
  97 ≤ b && b ≤ 122

/-- Models Rust u8::is_ascii_alphabetic: ASCII uppercase or lowercase letter. -/
def isAsciiAlphabetic (b : Nat) : Bool :=
  isAsciiUppercase b || isAsciiLowercase b

/-- The ChunkType struct of chunk_type.rs: a 4-byte chunk type code
(field codes: [u8; 4], modelled as the four bytes c0..c3). -/
structure ChunkType where
  c0 : Nat
  c1 : Nat
  c2 : Nat
  c3 : Nat
  deriving DecidableEq, Repr

/-- The 4 stored bytes, in order (ChunkType::bytes of chunk_type.rs). -/
def ChunkType.bytes (t : ChunkType) : List Nat :=
  [t.c0, t.c1, t.c2, t.c3]

/-- The ChunkTypeError enum of chunk_type.rs. -/
inductive ChunkTypeError where
  | reservedBit
  | invalidByte
  deriving DecidableEq, Repr

/-- ChunkType::is_critical of chunk_type.rs: byte 0 is ASCII uppercase. -/
def ChunkType.is_critical (t : ChunkType) : Bool :=
  isAsciiUppercase t.c0

/-- ChunkType::is_public of chunk_type.rs: byte 1 is ASCII uppercase. -/
def ChunkType.is_public (t : ChunkType) : Bool :=
  isAsciiUppercase t.c1

/-- ChunkType::is_reserved_bit_valid of chunk_type.rs: byte 2 is ASCII uppercase. -/
def ChunkType.is_reserved_bit_valid (t : ChunkType) : Bool :=
  isAsciiUppercase t.c2

/-- ChunkType::is_safe_to_copy of chunk_type.rs: byte 3 is ASCII lowercase. -/
def ChunkType.is_safe_to_copy (t : ChunkType) : Bool :=
  isAsciiLowercase t.c3

/-- ChunkType::is_only_alphabetic of chunk_type.rs: every byte is ASCII alphabetic. -/
def ChunkType.is_only_alphabetic (t : ChunkType) : Bool :=
  t.bytes.all isAsciiAlphabetic

/-- ChunkType::is_valid of chunk_type.rs. -/
def ChunkType.is_valid (t : ChunkType) : Bool :=
  t.is_only_alphabetic && t.is_reserved_bit_valid

/-- TryFrom<[u8; 4]> for ChunkType (chunk_type.rs lines 18-30): build the
value, then reject with ReservedBit if byte 2 is not uppercase, else with
InvalidByte if some byte is not ASCII alphabetic, else accept. -/
def ChunkType.tryFrom (b0 b1 b2 b3 : Nat) : Except ChunkTypeError ChunkType :=
  let res : ChunkType := ⟨b0, b1, b2, b3⟩
  if !res.is_reserved_bit_valid then .error .reservedBit
  else if !res.is_only_alphabetic then .error .invalidByte
  else .ok res

/-- ChunkType::try_from applied to a 4-byte buffer given as a list; the
callers below always pass exactly 4 bytes, so the catch-all is unreachable. -/
def ChunkType.fromList (l : List Nat) : Except ChunkTypeError ChunkType :=
  match l with
  | [b0, b1, b2, b3] => ChunkType.tryFrom b0 b1 b2 b3
  | _ => .error .invalidByte

/-- Models Rust char::is_alphabetic (the Unicode Alphabetic property) on a
Unicode scalar value, restricted to the scalar values exercised in this
development: the ASCII letters are Alphabetic, ASCII digits and punctuation
are not, and U+00C0 (Latin Capital Letter A with Grave, a category-Lu
letter) is Alphabetic. No other scalar values are used below. -/
def charIsAlphabetic (c : Nat) : Bool :=
  isAsciiAlphabetic c || c == 0xC0

/-- UTF-8 encoding of one Unicode scalar value (models how Rust str stores
its chars; str::as_bytes exposes exactly these bytes). -/
def utf8EncodeChar (c : Nat) : List Nat :=
  if c < 0x80 then [c]
  else if c < 0x800 then [0xC0 + c / 64, 0x80 + c % 64]
  else if c < 0x10000 then [0xE0 + c / 4096, 0x80 + c / 64 % 64, 0x80 + c % 64]
  else [0xF0 + c / 262144, 0x80 + c / 4096 % 64, 0x80 + c / 64 % 64, 0x80 + c % 64]

/-- Models Rust str::as_bytes on a string given as its list of scalar values. -/
def strAsBytes (s : List Nat) : List Nat :=
  (s.map utf8EncodeChar).flatten

/-- FromStr for ChunkType (chunk_type.rs lines 32-45): if every char of the
string is alphabetic, take bytes 0..4 of its UTF-8 form as the codes —
indexing that panics (models as none) when the string has fewer than 4
bytes — else fail with InvalidByte. -/
def ChunkType.from_str (s : List Nat) : Option (Except ChunkTypeError ChunkType) :=
  if s.all charIsAlphabetic then
    match strAsBytes s with
    | b0 :: b1 :: b2 :: b3 :: _ => some (.ok ⟨b0, b1, b2, b3⟩)
    | _ => none
  else some (.error .invalidByte)

/-- A UTF-8 continuation byte: 0x80..=0xBF. -/
def isUtf8Cont (b : Nat) : Bool :=
  0x80 ≤ b && b ≤ 0xBF

/-- UTF-8 validity of a byte list, as checked by Rust String::from_utf8:
1-byte ASCII, 2-byte C2..DF, 3-byte E0/E1..EC/ED/EE..EF with the usual
guards against overlong forms and surrogates, 4-byte F0/F1..F3/F4. -/
def isValidUtf8 : List Nat → Bool
  | [] => true
  | b :: l =>
    if b < 0x80 then isValidUtf8 l
    else
      match l with
      | [] => false
      | c1 :: l1 =>
        if 0xC2 ≤ b && b ≤ 0xDF then isUtf8Cont c1 && isValidUtf8 l1
        else
          match l1 with
          | [] => false
          | c2 :: l2 =>
            if b == 0xE0 then
              (0xA0 ≤ c1 && c1 ≤ 0xBF) && isUtf8Cont c2 && isValidUtf8 l2
            else if 0xE1 ≤ b && b ≤ 0xEC then
              isUtf8Cont c1 && isUtf8Cont c2 && isValidUtf8 l2
            else if b == 0xED then
              (0x80 ≤ c1 && c1 ≤ 0x9F) && isUtf8Cont c2 && isValidUtf8 l2
            else if 0xEE ≤ b && b ≤ 0xEF then
              isUtf8Cont c1 && isUtf8Cont c2 && isValidUtf8 l2
            else
              match l2 with
              | [] => false
              | c3 :: l3 =>
                if b == 0xF0 then
                  (0x90 ≤ c1 && c1 ≤ 0xBF) && isUtf8Cont c2 && isUtf8Cont c3 &&
                    isValidUtf8 l3
                else if 0xF1 ≤ b && b ≤ 0xF3 then
                  isUtf8Cont c1 && isUtf8Cont c2 && isUtf8Cont c3 && isValidUtf8 l3
                else if b == 0xF4 then
                  (0x80 ≤ c1 && c1 ≤ 0x8F) && isUtf8Cont c2 && isUtf8Cont c3 &&
                    isValidUtf8 l3
                else false

/-- Display for ChunkType (chunk_type.rs lines 47-52): String::from_utf8 on
the 4 stored bytes, then write the string. unwrap panics (none) when the
bytes are not valid UTF-8; otherwise the rendered bytes are exactly the
stored bytes. -/
def ChunkType.display (t : ChunkType) : Option (List Nat) :=
  if isValidUtf8 t.bytes then some t.bytes else none

/-- Models u32::from_be_bytes on a 4-byte big-endian list. -/
def u32FromBeBytes (l : List Nat) : Nat :=
  l.foldl (fun acc b => acc * 256 + b) 0

/-- Models u32::to_be_bytes: the 4 big-endian base-256 digits of n mod 2^32. -/
def u32ToBeBytes (n : Nat) : List Nat :=
  [n / 2 ^ 24 % 256, n / 2 ^ 16 % 256, n / 2 ^ 8 % 256, n % 256]

/-- One bit step of CRC-32/ISO-HDLC (reflected form, as computed by the crc
crate used in chunk.rs): if the low bit is set, shift right and xor the
reversed polynomial 0xEDB88320 (bit-reversal of 0x04C11DB7), else shift. -/
def crc32Round (c : Nat) : Nat :=
  if c % 2 == 1 then (c >>> 1) ^^^ 0xEDB88320 else c >>> 1

/-- Eight bit steps of CRC-32/ISO-HDLC, written out so that concrete
instances reduce without deep recursion. -/
def crc32RoundPow8 (c : Nat) : Nat :=
  crc32Round (crc32Round (crc32Round (crc32Round
    (crc32Round (crc32Round (crc32Round (crc32Round c)))))))

/-- One byte step of CRC-32/ISO-HDLC (refin = true): xor the byte into the
low bits of the state, then run 8 bit steps. -/
def crc32Byte (c b : Nat) : Nat :=
  crc32RoundPow8 (c ^^^ b)

/-- CRC-32/ISO-HDLC of a byte list: width 32, poly 0x04C11DB7, init
0xFFFFFFFF, refin and refout true, xorout 0xFFFFFFFF (the parameters of
crc::CRC_32_ISO_HDLC used by chunk.rs). -/
def crc32 (m : List Nat) : Nat :=
  m.foldl crc32Byte 0xFFFFFFFF ^^^ 0xFFFFFFFF

/-- The Chunk struct of chunk.rs: length and crc are u32 fields, data is the
payload byte vector. -/
structure Chunk where
  length : Nat
  chunk_type : ChunkType
  data : List Nat
  crc : Nat
  deriving DecidableEq, Repr

/-- The error cases Chunk::try_from of chunk.rs can return: the two
ChunkError variants, plus the io::Error (kind UnexpectedEof) that
read_exact returns when fewer bytes remain than requested. -/
inductive ChunkError where
  | unexpectedEof
  | chunkTypeError
  | crcError
  deriving DecidableEq, Repr

/-- TryFrom<&[u8]> for Chunk (chunk.rs lines 32-68). Reads a 4-byte
big-endian length, 4 type bytes (validated with ChunkType::try_from),
length payload bytes and a 4-byte big-endian crc, each read failing with
UnexpectedEof when fewer bytes remain. Then recomputes the CRC over
value[4..(4 + 4 + length) as usize]: that index arithmetic is u32, so it
wraps modulo 2^32, and the slice expression panics (none) when the wrapped
end index is below 4 or beyond the buffer. On success the decoded chunk is
returned (and also debug-printed, see chunkTryFromStdout). -/
def Chunk.tryFrom (value : List Nat) : Option (Except ChunkError Chunk) :=
  if value.length < 4 then some (.error .unexpectedEof)
  else
    let length := u32FromBeBytes (value.take 4)
    if value.length < 8 then some (.error .unexpectedEof)
    else
      match ChunkType.fromList ((value.drop 4).take 4) with
      | .error _ => some (.error .chunkTypeError)
      | .ok ct =>
        if value.length < 8 + length then some (.error .unexpectedEof)
        else
          let data := (value.drop 8).take length
          if value.length < 12 + length then some (.error .unexpectedEof)
          else
            let crc := u32FromBeBytes ((value.drop (8 + length)).take 4)
            let endIdx := (4 + 4 + length) % 2 ^ 32
            if endIdx < 4 then none
            else if value.length < endIdx then none
            else if crc ≠ crc32 ((value.drop 4).take (endIdx - 4)) then
              some (.error .crcError)
            else some (.ok ⟨length, ct, data, crc⟩)

/-- The bytes Chunk::try_from prints to stdout, abstracted to the list of
chunks it debug-prints: chunk.rs line 65 unconditionally prints the decoded
chunk just before returning Ok, so exactly the successfully decoded chunk
is printed, and nothing is printed on any error path. -/
def chunkTryFromStdout (value : List Nat) : List Chunk :=
  match Chunk.tryFrom value with
  | some (.ok c) => [c]
  | _ => []

/-- Chunk::new of chunk.rs lines 71-82: length is data.len() as u32 (a
truncating cast, hence mod 2^32), crc is the CRC-32/ISO-HDLC of the 4 type
bytes followed by the payload. -/
def Chunk.new (chunk_type : ChunkType) (data : List Nat) : Chunk :=
  { length := data.length % 2 ^ 32
    chunk_type := chunk_type
    data := data
    crc := crc32 (chunk_type.bytes ++ data) }

/-- Chunk::as_bytes of chunk.rs lines 102-114: big-endian length, the 4 type
bytes, the payload, big-endian crc. -/
def Chunk.as_bytes (c : Chunk) : List Nat :=
  u32ToBeBytes c.length ++ c.chunk_type.bytes ++ c.data ++ u32ToBeBytes c.crc

/-- Sanity check: the CRC-32/ISO-HDLC check value, crc32 of "123456789". -/
theorem crc32_check_value : crc32 [49, 50, 51, 52, 53, 54, 55, 56, 57] = 0xCBF43926 := by
  decide

/-- Sanity check: the crc of the repository's own test chunk (type "RuSt",
payload "This is where your secret message will be!") from chunk.rs tests.
The 46-byte message is split in two so each kernel evaluation stays small. -/
theorem crc32_test_vector :
    crc32 ([82, 117, 83, 116] ++
      [84, 104, 105, 115, 32, 105, 115, 32, 119, 104, 101, 114, 101, 32, 121,
       111, 117, 114, 32, 115, 101, 99, 114, 101, 116, 32, 109, 101, 115, 115,
       97, 103, 101, 32, 119, 105, 108, 108, 32, 98, 101, 33]) = 2882656334 := by
  have hsplit : [82, 117, 83, 116] ++
      [84, 104, 105, 115, 32, 105, 115, 32, 119, 104, 101, 114, 101, 32, 121,
       111, 117, 114, 32, 115, 101, 99, 114, 101, 116, 32, 109, 101, 115, 115,
       97, 103, 101, 32, 119, 105, 108, 108, 32, 98, 101, 33] =
      [82, 117, 83, 116, 84, 104, 105, 115, 32, 105, 115, 32, 119, 104, 101,
       114, 101, 32, 121, 111, 117, 114, 32] ++
      [115, 101, 99, 114, 101, 116, 32, 109, 101, 115, 115, 97, 103, 101, 32,
       119, 105, 108, 108, 32, 98, 101, 33] := by decide
  have h1 : List.foldl crc32Byte 0xFFFFFFFF
      [82, 117, 83, 116, 84, 104, 105, 115, 32, 105, 115, 32, 119, 104, 101,
       114, 101, 32, 121, 111, 117, 114, 32] = 1203689663 := by decide
  have h2 : List.foldl crc32Byte 1203689663
      [115, 101, 99, 114, 101, 116, 32, 109, 101, 115, 115, 97, 103, 101, 32,
       119, 105, 108, 108, 32, 98, 101, 33] = 1412310961 := by decide
  rw [crc32, hsplit, List.foldl_append, h1, h2]
  decide

/-- C2 counterexample: ChunkType::try_from on "Ru1t" (82,117,49,116) does
fail, but with ReservedBit — byte 2 is the digit 49, which is not ASCII
uppercase, and the reserved-bit check runs first — not with InvalidByte as
the claim states. -/
theorem c2_ru1t_counterexample :
    ChunkType.tryFrom 82 117 49 116 ≠ Except.error ChunkTypeError.invalidByte ∧
    ChunkType.tryFrom 82 117 49 116 = Except.error ChunkTypeError.reservedBit := by
  decide

/-- C2 amended: TypeTag construction from the 4 bytes of "Ru1t" fails, and
the error it fails with is ReservedBitError (the reserved-bit check on
byte 2 fires before the alphabetic check can report InvalidByteError). -/
theorem c2_ru1t_amended :
    ChunkType.tryFrom 82 117 49 116 = Except.error ChunkTypeError.reservedBit := by
  decide

/-- Characterization of ChunkType::try_from by the two checks it performs,
in the order it performs them. -/
theorem tryFrom_cases (b0 b1 b2 b3 : Nat) :
    (isAsciiUppercase b2 = false →
      ChunkType.tryFrom b0 b1 b2 b3 = Except.error ChunkTypeError.reservedBit) ∧
    (isAsciiUppercase b2 = true →
      ([b0, b1, b2, b3].all isAsciiAlphabetic = false →
        ChunkType.tryFrom b0 b1 b2 b3 = Except.error ChunkTypeError.invalidByte) ∧
      ([b0, b1, b2, b3].all isAsciiAlphabetic = true →
        ChunkType.tryFrom b0 b1 b2 b3 = Except.ok ⟨b0, b1, b2, b3⟩)) := by
  have hr : (⟨b0, b1, b2, b3⟩ : ChunkType).is_reserved_bit_valid =
      isAsciiUppercase b2 := rfl
  have ho : (⟨b0, b1, b2, b3⟩ : ChunkType).is_only_alphabetic =
      [b0, b1, b2, b3].all isAsciiAlphabetic := rfl
  constructor
  · intro h2
    simp [ChunkType.tryFrom, hr, h2]
  · intro h2
    constructor <;> intro ha <;> simp [ChunkType.tryFrom, hr, ho, h2, ha]

/-- A Bool that is not true is false. -/
theorem bool_not_true {b : Bool} (h : ¬b = true) : b = false := by
  cases b
  · rfl
  · exact absurd rfl h

/-- C3: for every 4-byte input, ChunkType::try_from fails with ReservedBit
whenever byte 2 is not ASCII uppercase; otherwise it fails with InvalidByte
whenever some byte is not ASCII alphabetic; otherwise it succeeds and
stores exactly the 4 input bytes. The reserved-bit conjunct carries no
alphabetic hypothesis: that check is evaluated first. -/
theorem c3_tryFrom_spec (b0 b1 b2 b3 : Nat) :
    (isAsciiUppercase b2 = false →
      ChunkType.tryFrom b0 b1 b2 b3 = Except.error ChunkTypeError.reservedBit) ∧
    (isAsciiUppercase b2 = true →
      [b0, b1, b2, b3].all isAsciiAlphabetic = false →
      ChunkType.tryFrom b0 b1 b2 b3 = Except.error ChunkTypeError.invalidByte) ∧
    (isAsciiUppercase b2 = true →
      [b0, b1, b2, b3].all isAsciiAlphabetic = true →
      ChunkType.tryFrom b0 b1 b2 b3 = Except.ok ⟨b0, b1, b2, b3⟩) :=
  ⟨(tryFrom_cases b0 b1 b2 b3).1,
   fun h2 => ((tryFrom_cases b0 b1 b2 b3).2 h2).1,
   fun h2 => ((tryFrom_cases b0 b1 b2 b3).2 h2).2⟩

/-- C3 witness: the three conjuncts of c3_tryFrom_spec at concrete inputs
("Rust" has a lowercase byte 2, "R1St" has a non-alphabetic byte 1,
"RuSt" is accepted and stored byte for byte). -/
theorem c3_witness :
    ChunkType.tryFrom 82 117 115 116 = Except.error ChunkTypeError.reservedBit ∧
    ChunkType.tryFrom 82 49 83 116 = Except.error ChunkTypeError.invalidByte ∧
    ChunkType.tryFrom 82 117 83 116 = Except.ok ⟨82, 117, 83, 116⟩ :=
  ⟨(c3_tryFrom_spec 82 117 115 116).1 (by decide),
   (c3_tryFrom_spec 82 49 83 116).2.1 (by decide) (by decide),
   (c3_tryFrom_spec 82 117 83 116).2.2 (by decide) (by decide)⟩

/-- C4 counterexample: ChunkType::from_str accepts the string "ÀÀ" — both
chars have the Unicode Alphabetic property — and stores its UTF-8 bytes
195,128,195,128, which are not ASCII alphabetic. So not every successfully
constructed TypeTag has ASCII-alphabetic bytes. -/
theorem c4_counterexample :
    ChunkType.from_str [0xC0, 0xC0] =
      some (Except.ok ⟨195, 128, 195, 128⟩) ∧
    isAsciiAlphabetic 195 = false := by
  decide

/-- C4 amended: every TypeTag successfully constructed by ChunkType::try_from
has all 4 stored bytes ASCII alphabetic, and a 4-byte input violating this
is never accepted by try_from. (ChunkType::from_str does not guarantee the
ASCII-alphabetic invariant: it checks Unicode-alphabetic chars, not bytes.) -/
theorem c4_amended (b0 b1 b2 b3 : Nat) :
    (∀ t, ChunkType.tryFrom b0 b1 b2 b3 = Except.ok t →
      t.bytes.all isAsciiAlphabetic = true) ∧
    ([b0, b1, b2, b3].all isAsciiAlphabetic = false →
      ∀ t, ChunkType.tryFrom b0 b1 b2 b3 ≠ Except.ok t) := by
  constructor
  · intro t ht
    by_cases h2 : isAsciiUppercase b2 = true
    · by_cases ha : [b0, b1, b2, b3].all isAsciiAlphabetic = true
      · rw [((tryFrom_cases b0 b1 b2 b3).2 h2).2 ha] at ht
        injection ht with h
        subst h
        exact ha
      · rw [((tryFrom_cases b0 b1 b2 b3).2 h2).1 (bool_not_true ha)] at ht
        exact Except.noConfusion ht
    · rw [(tryFrom_cases b0 b1 b2 b3).1 (bool_not_true h2)] at ht
      exact Except.noConfusion ht
  · intro halpha t ht
    by_cases h2 : isAsciiUppercase b2 = true
    · rw [((tryFrom_cases b0 b1 b2 b3).2 h2).1 halpha] at ht
      exact Except.noConfusion ht
    · rw [(tryFrom_cases b0 b1 b2 b3).1 (bool_not_true h2)] at ht
      exact Except.noConfusion ht

/-- C4 witness: c4_amended applied at "RuSt" (accepted, all bytes ASCII
alphabetic) and at "Ru1t" (byte 49 is not alphabetic, never accepted). -/
theorem c4_witness :
    (⟨82, 117, 83, 116⟩ : ChunkType).bytes.all isAsciiAlphabetic = true ∧
    ChunkType.tryFrom 82 117 49 116 ≠ Except.ok ⟨82, 117, 49, 116⟩ :=
  ⟨(c4_amended 82 117 83 116).1 ⟨82, 117, 83, 116⟩ (by decide),
   (c4_amended 82 117 49 116).2 (by decide) ⟨82, 117, 49, 116⟩⟩

/-- C6: ChunkType::from_str on the 2-character string "ab" panics — every
char is alphabetic, so the code indexes bytes[2] of a 2-byte buffer —
instead of returning InvalidByteError as the spec requires. -/
theorem c6_short_string_panics :
    ChunkType.from_str [97, 98] = none := by
  decide

/-- The length field Chunk::new stores is the payload length reduced by the
as-u32 cast. -/
theorem new_length_eq (t : ChunkType) (p : List Nat) :
    (Chunk.new t p).length = p.length % 2 ^ 32 :=
  rfl

/-- C7 counterexample: Chunk::new truncates the payload length with an
as-u32 cast, so for a payload of 2^32 zero bytes the stored length field is
0, not the payload byte count. -/
theorem c7_counterexample :
    (Chunk.new ⟨82, 117, 83, 116⟩ (List.replicate (2 ^ 32) 0)).length ≠
      (List.replicate (2 ^ 32) 0).length := by
  rw [new_length_eq, List.length_replicate, Nat.mod_self]
  exact (Nat.pos_pow_of_pos 32 (by norm_num)).ne

/-- C7 amended: Chunk::new always succeeds; for payloads of fewer than 2^32
bytes the length field equals the payload byte count, and in all cases the
checksum field is the CRC-32/ISO-HDLC of the 4 type bytes followed by the
payload, and the type and payload are stored unchanged. -/
theorem c7_amended (t : ChunkType) (p : List Nat) (hp : p.length < 2 ^ 32) :
    (Chunk.new t p).length = p.length ∧
    (Chunk.new t p).crc = crc32 (t.bytes ++ p) ∧
    (Chunk.new t p).chunk_type = t ∧
    (Chunk.new t p).data = p :=
  ⟨Nat.mod_eq_of_lt hp, rfl, rfl, rfl⟩

/-- C7 witness: c7_amended at type "RuSt" and payload "hello"; the crc is
the concrete CRC-32/ISO-HDLC value of the 9-byte message. -/
theorem c7_witness :
    (Chunk.new ⟨82, 117, 83, 116⟩ [104, 101, 108, 108, 111]).length = 5 ∧
    (Chunk.new ⟨82, 117, 83, 116⟩ [104, 101, 108, 108, 111]).crc = 748752844 :=
  ⟨((c7_amended ⟨82, 117, 83, 116⟩ [104, 101, 108, 108, 111] (by decide)).1).trans
      (by decide),
   ((c7_amended ⟨82, 117, 83, 116⟩ [104, 101, 108, 108, 111] (by decide)).2.1).trans
      (by decide)⟩

/-- C9: decoding is not output-free: on the valid 12-byte buffer holding an
empty-payload "RuSt" chunk, Chunk::try_from debug-prints the decoded chunk
to stdout (chunk.rs line 65) before returning it. -/
theorem c9_decode_prints :
    chunkTryFromStdout ([0, 0, 0, 0, 82, 117, 83, 116] ++ u32ToBeBytes 3565422908) ≠
      ([] : List Chunk) := by
  decide

/-- C10 counterexample: the 4-char string "aaaÀ" is all-alphabetic, so
ChunkType::from_str accepts it, storing bytes 97,97,97,195 (the fourth char
is multi-byte in UTF-8 and is cut); those bytes are not valid UTF-8, so
Display (String::from_utf8(..).unwrap()) panics instead of rendering. -/
theorem c10_counterexample :
    ChunkType.from_str [97, 97, 97, 0xC0] = some (Except.ok ⟨97, 97, 97, 195⟩) ∧
    ChunkType.display ⟨97, 97, 97, 195⟩ = none := by
  decide

/-- C10 amended: rendering a TypeTag yields exactly the 4 stored bytes and
does not panic whenever those bytes are valid UTF-8 — in particular for
every tag built by ChunkType::try_from, whose bytes are ASCII; a tag whose
stored bytes are not valid UTF-8 (reachable only via from_str) makes
Display panic. -/
theorem c10_amended (t : ChunkType) :
    (isValidUtf8 t.bytes = true → t.display = some t.bytes) ∧
    (∀ b0 b1 b2 b3, ChunkType.tryFrom b0 b1 b2 b3 = Except.ok t →
      t.display = some t.bytes) ∧
    (isValidUtf8 t.bytes = false → t.display = none) := by
  refine ⟨fun h => by simp [ChunkType.display, h], fun b0 b1 b2 b3 ht => ?_,
    fun h => by simp [ChunkType.display, h]⟩
  by_cases h2 : isAsciiUppercase b2 = true
  · by_cases ha : [b0, b1, b2, b3].all isAsciiAlphabetic = true
    · rw [((tryFrom_cases b0 b1 b2 b3).2 h2).2 ha] at ht
      injection ht with h
      subst h
      simp only [List.all_cons, List.all_nil, Bool.and_true,
        Bool.and_eq_true] at ha
      obtain ⟨ha0, ha1, ha2, ha3⟩ := ha
      have hlt : ∀ x : Nat, isAsciiAlphabetic x = true → x < 0x80 := by
        intro x hx
        simp only [isAsciiAlphabetic, isAsciiUppercase, isAsciiLowercase,
          Bool.or_eq_true, Bool.and_eq_true, decide_eq_true_eq] at hx
        omega
      have h0 := hlt _ ha0
      have h1 := hlt _ ha1
      have h22 := hlt _ ha2
      have h3 := hlt _ ha3
      simp [ChunkType.display, ChunkType.bytes, isValidUtf8, h0, h1, h22, h3]
    · rw [((tryFrom_cases b0 b1 b2 b3).2 h2).1 (bool_not_true ha)] at ht
      exact Except.noConfusion ht
  · rw [(tryFrom_cases b0 b1 b2 b3).1 (bool_not_true h2)] at ht
    exact Except.noConfusion ht

/-- C10 witness: c10_amended at the tag "RuSt", via both the valid-UTF-8
route and the try_from route. -/
theorem c10_witness :
    (⟨82, 117, 83, 116⟩ : ChunkType).display = some [82, 117, 83, 116] ∧
    (⟨82, 117, 83, 116⟩ : ChunkType).display =
      some (⟨82, 117, 83, 116⟩ : ChunkType).bytes :=
  ⟨(c10_amended ⟨82, 117, 83, 116⟩).1 (by decide),
   (c10_amended ⟨82, 117, 83, 116⟩).2.1 82 117 83 116 (by decide)⟩

/-- Right shift by one distributes over xor. -/
theorem shiftRight_one_xor (a b : Nat) : (a ^^^ b) >>> 1 = a >>> 1 ^^^ b >>> 1 :=
  Nat.eq_of_testBit_eq fun i => by
    simp [Nat.testBit_shiftRight, Nat.testBit_xor]

/-- Two values xored with the same mask: the masks cancel. -/
theorem xor_xor_cancel (a b r : Nat) : (a ^^^ r) ^^^ (b ^^^ r) = a ^^^ b :=
  Nat.eq_of_testBit_eq fun i => by
    simp only [Nat.testBit_xor]
    cases a.testBit i <;> cases b.testBit i <;> cases r.testBit i <;> rfl

/-- Parity of an xor is the xor of the parities. -/
theorem xor_mod_two (x y : Nat) : (x ^^^ y) % 2 = x % 2 ^^^ y % 2 := by
  rw [← Nat.and_one_is_mod, ← Nat.and_one_is_mod x, ← Nat.and_one_is_mod y,
    Nat.and_xor_distrib_right]

/-- Rearrangement lemma for xor. -/
theorem xor_left_comm_nat (a b c : Nat) : a ^^^ (b ^^^ c) = b ^^^ (a ^^^ c) := by
  rw [← Nat.xor_assoc, Nat.xor_comm a b, Nat.xor_assoc]

/-- xoring twice with the same value is the identity. -/
theorem xor_xor_self (a b : Nat) : a ^^^ (a ^^^ b) = b := by
  rw [← Nat.xor_assoc, Nat.xor_self, Nat.zero_xor]

/-- Left cancellation for xor. -/
theorem xor_left_cancel_nat {a b c : Nat} (h : a ^^^ b = a ^^^ c) : b = c := by
  have h2 := congrArg (fun z => a ^^^ z) h
  simpa only [xor_xor_self] using h2

/-- Right cancellation for xor. -/
theorem xor_right_cancel_nat {a b r : Nat} (h : a ^^^ r = b ^^^ r) : a = b := by
  rw [Nat.xor_comm a r, Nat.xor_comm b r] at h
  exact xor_left_cancel_nat h

/-- Closed form of the CRC bit step: shift, plus the polynomial exactly when
the low bit is set. -/
theorem crc32Round_eq (c : Nat) :
    crc32Round c = c >>> 1 ^^^ c % 2 * 0xEDB88320 := by
  rcases Nat.mod_two_eq_zero_or_one c with h | h <;> simp [crc32Round, h]

/-- The CRC bit step is linear over xor. -/
theorem crc32Round_linear (x y : Nat) :
    crc32Round (x ^^^ y) = crc32Round x ^^^ crc32Round y := by
  rw [crc32Round_eq, crc32Round_eq, crc32Round_eq, shiftRight_one_xor, xor_mod_two]
  rcases Nat.mod_two_eq_zero_or_one x with hx | hx <;>
    rcases Nat.mod_two_eq_zero_or_one y with hy | hy <;>
    simp [hx, hy, Nat.xor_assoc, Nat.xor_comm, xor_left_comm_nat, xor_xor_self]

/-- The 8-fold CRC bit step is linear over xor. -/
theorem crc32RoundPow8_linear (x y : Nat) :
    crc32RoundPow8 (x ^^^ y) = crc32RoundPow8 x ^^^ crc32RoundPow8 y := by
  simp [crc32RoundPow8, crc32Round_linear]

/-- An xor difference injected into the CRC state propagates through one byte
step as the 8-fold bit step of the difference. -/
theorem crc32Byte_state_xor (x d b : Nat) :
    crc32Byte (x ^^^ d) b = crc32Byte x b ^^^ crc32RoundPow8 d := by
  have h : x ^^^ d ^^^ b = x ^^^ b ^^^ d := by
    rw [Nat.xor_assoc, Nat.xor_assoc, Nat.xor_comm d b]
  rw [crc32Byte, crc32Byte, h, crc32RoundPow8_linear]

/-- An xor difference in the processed byte propagates the same way. -/
theorem crc32Byte_byte_xor (c b d : Nat) :
    crc32Byte c (b ^^^ d) = crc32Byte c b ^^^ crc32RoundPow8 d := by
  rw [crc32Byte, crc32Byte, ← Nat.xor_assoc, crc32RoundPow8_linear]

/-- An xor difference in the CRC state propagates through a whole byte list
as iterated 8-fold bit steps. -/
theorem foldl_crc32Byte_xor (l : List Nat) :
    ∀ x d : Nat, l.foldl crc32Byte (x ^^^ d) =
      l.foldl crc32Byte x ^^^ crc32RoundPow8^[l.length] d := by
  induction l with
  | nil => intro x d; simp
  | cons a t ih =>
    intro x d
    simp only [List.foldl_cons, List.length_cons]
    rw [crc32Byte_state_xor, ih, Function.iterate_succ_apply]

/-- The CRC bit step keeps values below 2^32. -/
theorem crc32Round_lt (c : Nat) (h : c < 2 ^ 32) : crc32Round c < 2 ^ 32 := by
  rw [crc32Round_eq]
  apply Nat.xor_lt_two_pow
  · calc c >>> 1 = c / 2 := Nat.shiftRight_one c
    _ ≤ c := Nat.div_le_self c 2
    _ < 2 ^ 32 := h
  · rcases Nat.mod_two_eq_zero_or_one c with h2 | h2 <;> rw [h2] <;> norm_num

/-- The CRC bit step is injective below 2^32; in particular it sends no
nonzero value to zero (2 * 0xEDB88320 + 1 does not fit in 32 bits). -/
theorem crc32Round_ne_zero (c : Nat) (hlt : c < 2 ^ 32) (hne : c ≠ 0) :
    crc32Round c ≠ 0 := by
  have h32 : (2 : Nat) ^ 32 = 4294967296 := by norm_num
  rw [h32] at hlt
  rw [crc32Round_eq, Nat.shiftRight_one]
  rcases Nat.mod_two_eq_zero_or_one c with h2 | h2 <;> rw [h2]
  · simp only [Nat.zero_mul, Nat.xor_zero]
    omega
  · simp only [Nat.one_mul]
    intro h0
    have hr : c / 2 = 0xEDB88320 := by
      have h3 := congrArg (fun z => z ^^^ 0xEDB88320) h0
      simpa [Nat.xor_assoc, Nat.xor_self, Nat.xor_zero, Nat.zero_xor] using h3
    omega

/-- The 8-fold bit step preserves being a nonzero value below 2^32. -/
theorem crc32RoundPow8_preserves (d : Nat) (hlt : d < 2 ^ 32) (hne : d ≠ 0) :
    crc32RoundPow8 d < 2 ^ 32 ∧ crc32RoundPow8 d ≠ 0 := by
  have s : ∀ x : Nat, x < 2 ^ 32 ∧ x ≠ 0 →
      crc32Round x < 2 ^ 32 ∧ crc32Round x ≠ 0 :=
    fun x hx => ⟨crc32Round_lt x hx.1, crc32Round_ne_zero x hx.1 hx.2⟩
  exact s _ (s _ (s _ (s _ (s _ (s _ (s _ (s _ ⟨hlt, hne⟩)))))))

/-- Iterating the 8-fold bit step never sends a nonzero 32-bit value to 0. -/
theorem iterate_crc32RoundPow8_ne_zero (k : Nat) :
    ∀ d : Nat, d < 2 ^ 32 → d ≠ 0 → crc32RoundPow8^[k] d ≠ 0 := by
  induction k with
  | zero => intro d _ hne; simpa using hne
  | succ n ih =>
    intro d hlt hne
    rw [Function.iterate_succ_apply]
    obtain ⟨h1, h2⟩ := crc32RoundPow8_preserves d hlt hne
    exact ih _ h1 h2

/-- CRC-32 separates byte lists that differ by a nonzero 32-bit xor at one
position. -/
theorem crc32_flip_ne (pre suf : List Nat) (b d : Nat) (hne : d ≠ 0)
    (hlt : d < 2 ^ 32) :
    crc32 (pre ++ (b ^^^ d) :: suf) ≠ crc32 (pre ++ b :: suf) := by
  intro h
  unfold crc32 at h
  rw [List.foldl_append, List.foldl_append, List.foldl_cons, List.foldl_cons,
    crc32Byte_byte_xor, foldl_crc32Byte_xor] at h
  have h2 := xor_right_cancel_nat h
  have h3 : crc32RoundPow8^[suf.length] (crc32RoundPow8 d) = 0 := by
    refine xor_left_cancel_nat (a := List.foldl crc32Byte
      (crc32Byte (List.foldl crc32Byte 0xFFFFFFFF pre) b) suf) ?_
    rw [h2, Nat.xor_zero]
  obtain ⟨p1, p2⟩ := crc32RoundPow8_preserves d hlt hne
  exact iterate_crc32RoundPow8_ne_zero suf.length _ p1 p2 h3

/-- CRC-32 changes when one byte of the message is flipped by a nonzero
32-bit xor difference. -/
theorem crc32_set_ne (m : List Nat) (k : Nat) (hk : k < m.length) (d : Nat)
    (hne : d ≠ 0) (hlt : d < 2 ^ 32) :
    crc32 (m.set k (m.getD k 0 ^^^ d)) ≠ crc32 m := by
  have hgd : m.getD k 0 = m[k] := by
    simp [List.getD_eq_getElem?_getD, List.getElem?_eq_getElem hk]
  have hset : m.set k (m.getD k 0 ^^^ d) =
      m.take k ++ (m.getD k 0 ^^^ d) :: m.drop (k + 1) := by
    rw [List.set_eq_take_append_cons_drop, if_pos hk]
  have hm : m = m.take k ++ m.getD k 0 :: m.drop (k + 1) := by
    conv_lhs => rw [← List.take_append_drop k m, List.drop_eq_getElem_cons hk]
    rw [hgd]
  rw [hset]
  conv_rhs => rw [hm]
  exact crc32_flip_ne _ _ _ d hne hlt

/-- Characterization of Chunk::try_from on a buffer long enough for the full
record, with a valid type tag and a declared length small enough that the
u32 arithmetic computing the checksum slice end does not wrap: decoding
reduces to the checksum comparison over the type and payload bytes. -/
theorem tryFrom_decode (value : List Nat) (t : ChunkType)
    (hlen : 12 + u32FromBeBytes (value.take 4) ≤ value.length)
    (hw : 8 + u32FromBeBytes (value.take 4) < 2 ^ 32)
    (ht : ChunkType.fromList ((value.drop 4).take 4) = Except.ok t) :
    Chunk.tryFrom value =
      if u32FromBeBytes ((value.drop (8 + u32FromBeBytes (value.take 4))).take 4) ≠
          crc32 ((value.drop 4).take (4 + u32FromBeBytes (value.take 4)))
      then some (Except.error ChunkError.crcError)
      else some (Except.ok
        { length := u32FromBeBytes (value.take 4), chunk_type := t,
          data := (value.drop 8).take (u32FromBeBytes (value.take 4)),
          crc := u32FromBeBytes ((value.drop (8 + u32FromBeBytes (value.take 4))).take 4) }) := by
  have h32 : (2 : Nat) ^ 32 = 4294967296 := by norm_num
  set len := u32FromBeBytes (value.take 4) with hlendef
  have hw' : 8 + len < 4294967296 := h32 ▸ hw
  have h4 : ¬ value.length < 4 := by omega
  have h8 : ¬ value.length < 8 := by omega
  have h8l : ¬ value.length < 8 + len := by omega
  have h12l : ¬ value.length < 12 + len := by omega
  have hmod : (4 + 4 + len) % 2 ^ 32 = 8 + len := by
    rw [Nat.mod_eq_of_lt (by rw [h32]; omega)]
  have hend4 : ¬ (8 + len < 4) := by omega
  have hsub : 8 + len - 4 = 4 + len := by omega
  simp only [Chunk.tryFrom, ← hlendef, ht]
  rw [if_neg h4, if_neg h8, if_neg h8l, if_neg h12l, hmod, if_neg hend4,
    if_neg h8l, hsub]

/-- A list of length 4 is a 4-element literal. -/
theorem length_eq_four {l : List Nat} (h : l.length = 4) :
    ∃ a b c d, l = [a, b, c, d] := by
  rcases l with _ | ⟨a, _ | ⟨b, _ | ⟨c, _ | ⟨d, _ | ⟨e, r⟩⟩⟩⟩⟩ <;>
    simp_all

/-- Changing one byte of a 4-byte big-endian word changes its value. -/
theorem be32_set_ne (l : List Nat) (hl : l.length = 4) (hb : ∀ x ∈ l, x < 256)
    (k : Nat) (hk : k < 4) (a : Nat) (hne : a ≠ l.getD k 0) :
    u32FromBeBytes (l.set k a) ≠ u32FromBeBytes l := by
  obtain ⟨x0, x1, x2, x3, rfl⟩ := length_eq_four hl
  have h0 : x0 < 256 := hb x0 (by simp)
  have h1 : x1 < 256 := hb x1 (by simp)
  have h2 : x2 < 256 := hb x2 (by simp)
  have h3 : x3 < 256 := hb x3 (by simp)
  interval_cases k <;>
    simp only [List.set, List.getD_eq_getElem?_getD, List.getElem?_cons_zero,
      List.getElem?_cons_succ, Option.getD_some, u32FromBeBytes, List.foldl] at hne ⊢ <;>
    omega

/-- C5 counterexample: on the 12-byte buffer with length 0, the invalid type
"Ru1t" and checksum field 0, the recomputed CRC differs from the decoded
checksum field, yet decoding does not fail with the checksum error — the
type error preempts it. The claimed equivalence is false there. -/
theorem c5_counterexample :
    u32FromBeBytes [0, 0, 0, 0] ≠ crc32 [82, 117, 49, 116] ∧
    Chunk.tryFrom [0, 0, 0, 0, 82, 117, 49, 116, 0, 0, 0, 0] ≠
      some (Except.error ChunkError.crcError) ∧
    Chunk.tryFrom [0, 0, 0, 0, 82, 117, 49, 116, 0, 0, 0, 0] =
      some (Except.error ChunkError.chunkTypeError) := by
  refine ⟨by decide, by decide, by decide⟩

/-- C5 amended: for every byte buffer long enough for the full record whose
4 type bytes form a valid type tag and whose declared length keeps the
32-bit checksum-slice arithmetic from wrapping, decoding fails with the
checksum error exactly when the decoded big-endian checksum field differs
from the CRC-32/ISO-HDLC recomputed over the type and payload bytes; and
flipping any single bit of the payload or checksum field of a buffer that
decodes successfully makes decoding fail with that checksum error. -/
theorem c5_amended (value : List Nat) (hb : ∀ b ∈ value, b < 256)
    (hlen : 12 + u32FromBeBytes (value.take 4) ≤ value.length)
    (hw : 8 + u32FromBeBytes (value.take 4) < 2 ^ 32)
    (t : ChunkType)
    (ht : ChunkType.fromList ((value.drop 4).take 4) = Except.ok t) :
    (Chunk.tryFrom value = some (Except.error ChunkError.crcError) ↔
      u32FromBeBytes ((value.drop (8 + u32FromBeBytes (value.take 4))).take 4) ≠
        crc32 ((value.drop 4).take (4 + u32FromBeBytes (value.take 4)))) ∧
    (∀ c, Chunk.tryFrom value = some (Except.ok c) →
      ∀ i j, 8 ≤ i → i < 12 + u32FromBeBytes (value.take 4) → j < 8 →
        Chunk.tryFrom (value.set i (value.getD i 0 ^^^ 2 ^ j)) =
          some (Except.error ChunkError.crcError)) := by
  have h32 : (2 : Nat) ^ 32 = 4294967296 := by norm_num
  set len := u32FromBeBytes (value.take 4) with hlendef
  have hdec := tryFrom_decode value t hlen hw ht
  rw [← hlendef] at hdec
  constructor
  · constructor
    · intro h
      by_contra hcond
      rw [hdec, if_neg (fun hn => hn hcond)] at h
      simp at h
    · intro hcond
      rw [hdec, if_pos hcond]
  · intro c hc i j hi8 hi12 hj
    have heq : u32FromBeBytes ((value.drop (8 + len)).take 4) =
        crc32 ((value.drop 4).take (4 + len)) := by
      by_contra hnc
      rw [hdec, if_pos hnc] at hc
      simp at hc
    have hival : i < value.length := by omega
    have hd0 : (2 : Nat) ^ j ≠ 0 := (Nat.pos_pow_of_pos j (by norm_num)).ne'
    have hdlt : (2 : Nat) ^ j < 2 ^ 32 :=
      Nat.pow_lt_pow_right (by norm_num) (by omega)
    set b := value.getD i 0 with hbdef
    set v2 := value.set i (b ^^^ 2 ^ j) with hv2def
    have hlen2 : v2.length = value.length := List.length_set value i _
    have htake4 : v2.take 4 = value.take 4 := by
      rw [hv2def, List.set_take]
      exact List.set_eq_of_length_le (by simp [List.length_take]; omega)
    have hdrop4 : v2.drop 4 = (value.drop 4).set (i - 4) (b ^^^ 2 ^ j) := by
      rw [hv2def, List.drop_set, if_neg (by omega)]
    have httype : (v2.drop 4).take 4 = (value.drop 4).take 4 := by
      rw [hdrop4, List.set_take]
      exact List.set_eq_of_length_le (by simp [List.length_take]; omega)
    have hdec2 := tryFrom_decode v2 t
      (by rw [htake4, hlen2]; exact hlen)
      (by rw [htake4]; exact hw)
      (by rw [httype]; exact ht)
    rw [htake4, ← hlendef] at hdec2
    have hmslen : ((value.drop 4).take (4 + len)).length = 4 + len := by
      simp [List.length_take]
      omega
    by_cases hcase : i < 8 + len
    · have hcf2 : (v2.drop (8 + len)).take 4 = (value.drop (8 + len)).take 4 := by
        rw [hv2def, List.drop_set, if_pos hcase]
      have hms2 : (v2.drop 4).take (4 + len) =
          ((value.drop 4).take (4 + len)).set (i - 4) (b ^^^ 2 ^ j) := by
        rw [hdrop4, List.set_take]
      have hbms : ((value.drop 4).take (4 + len)).getD (i - 4) 0 = b := by
        rw [List.getD_eq_getElem?_getD, List.getElem?_take_of_lt (by omega),
          List.getElem?_drop, show 4 + (i - 4) = i by omega,
          ← List.getD_eq_getElem?_getD]
      have hcrcne : crc32 (((value.drop 4).take (4 + len)).set (i - 4) (b ^^^ 2 ^ j)) ≠
          crc32 ((value.drop 4).take (4 + len)) := by
        rw [show b = ((value.drop 4).take (4 + len)).getD (i - 4) 0 from hbms.symm]
        exact crc32_set_ne _ (i - 4) (by omega) (2 ^ j) hd0 hdlt
      rw [hdec2, hcf2, hms2, if_pos]
      rw [heq]
      exact (Ne.symm hcrcne)
    · have hms2 : (v2.drop 4).take (4 + len) = (value.drop 4).take (4 + len) := by
        rw [hdrop4, List.set_take]
        exact List.set_eq_of_length_le (by omega)
      have hcf2 : (v2.drop (8 + len)).take 4 =
          ((value.drop (8 + len)).take 4).set (i - (8 + len)) (b ^^^ 2 ^ j) := by
        rw [hv2def, List.drop_set, if_neg hcase, List.set_take]
      have hcflen : ((value.drop (8 + len)).take 4).length = 4 := by
        simp [List.length_take]
        omega
      have hcfbytes : ∀ x ∈ (value.drop (8 + len)).take 4, x < 256 := fun x hx =>
        hb x (List.mem_of_mem_drop (List.mem_of_mem_take hx))
      have hbcf : ((value.drop (8 + len)).take 4).getD (i - (8 + len)) 0 = b := by
        rw [List.getD_eq_getElem?_getD, List.getElem?_take_of_lt (by omega),
          List.getElem?_drop, show 8 + len + (i - (8 + len)) = i by omega,
          ← List.getD_eq_getElem?_getD]
      have hbne : b ^^^ 2 ^ j ≠ b := fun h =>
        absurd (xor_left_cancel_nat (h.trans (Nat.xor_zero b).symm)) hd0
      have hfe : u32FromBeBytes (((value.drop (8 + len)).take 4).set
            (i - (8 + len)) (b ^^^ 2 ^ j)) ≠
          u32FromBeBytes ((value.drop (8 + len)).take 4) :=
        be32_set_ne _ hcflen hcfbytes (i - (8 + len)) (by omega) (b ^^^ 2 ^ j)
          (by rw [hbcf]; exact hbne)
      rw [hdec2, hms2, hcf2, if_pos]
      rw [← heq]
      exact hfe

/-- C5 witness: c5_amended at the concrete 17-byte buffer holding a valid
"RuSt" chunk with payload "hello" and correct checksum 748752844; flipping
bit 0 of payload byte 8 makes decoding fail with the checksum error. -/
theorem c5_witness :
    (Chunk.tryFrom [0, 0, 0, 5, 82, 117, 83, 116, 104, 101, 108, 108, 111,
        44, 161, 15, 204] = some (Except.error ChunkError.crcError) ↔
      u32FromBeBytes (([0, 0, 0, 5, 82, 117, 83, 116, 104, 101, 108, 108, 111,
          44, 161, 15, 204].drop (8 + u32FromBeBytes ([0, 0, 0, 5, 82, 117, 83,
          116, 104, 101, 108, 108, 111, 44, 161, 15, 204].take 4))).take 4) ≠
        crc32 (([0, 0, 0, 5, 82, 117, 83, 116, 104, 101, 108, 108, 111,
          44, 161, 15, 204].drop 4).take (4 + u32FromBeBytes ([0, 0, 0, 5, 82,
          117, 83, 116, 104, 101, 108, 108, 111, 44, 161, 15, 204].take 4)))) ∧
    Chunk.tryFrom ([0, 0, 0, 5, 82, 117, 83, 116, 104, 101, 108, 108, 111,
        44, 161, 15, 204].set 8 ([0, 0, 0, 5, 82, 117, 83, 116, 104, 101, 108,
        108, 111, 44, 161, 15, 204].getD 8 0 ^^^ 2 ^ 0)) =
      some (Except.error ChunkError.crcError) := by
  have h := c5_amended
    [0, 0, 0, 5, 82, 117, 83, 116, 104, 101, 108, 108, 111, 44, 161, 15, 204]
    (by decide) (by decide) (by decide) ⟨82, 117, 83, 116⟩ (by decide)
  exact ⟨h.1, h.2 ⟨5, ⟨82, 117, 83, 116⟩, [104, 101, 108, 108, 111], 748752844⟩
    (by decide) 8 0 (by decide) (by decide) (by decide)⟩

/-- The 8-fold CRC bit step keeps values below 2^32. -/
theorem crc32RoundPow8_lt (c : Nat) (h : c < 2 ^ 32) : crc32RoundPow8 c < 2 ^ 32 := by
  unfold crc32RoundPow8
  exact crc32Round_lt _ (crc32Round_lt _ (crc32Round_lt _ (crc32Round_lt _
    (crc32Round_lt _ (crc32Round_lt _ (crc32Round_lt _ (crc32Round_lt _ h)))))))

/-- The CRC state stays below 2^32 while absorbing 32-bit-bounded bytes. -/
theorem foldl_crc32Byte_lt (m : List Nat) :
    ∀ c : Nat, c < 2 ^ 32 → (∀ b ∈ m, b < 2 ^ 32) → m.foldl crc32Byte c < 2 ^ 32 := by
  induction m with
  | nil => intro c hc _; simpa using hc
  | cons a l ih =>
    intro c hc hm
    simp only [List.foldl_cons]
    exact ih _ (crc32RoundPow8_lt _ (Nat.xor_lt_two_pow hc (hm a (by simp))))
      (fun b hb => hm b (by simp [hb]))

/-- CRC-32 of a list of 32-bit-bounded values is a 32-bit value. -/
theorem crc32_lt (m : List Nat) (hm : ∀ b ∈ m, b < 2 ^ 32) : crc32 m < 2 ^ 32 := by
  unfold crc32
  exact Nat.xor_lt_two_pow (foldl_crc32Byte_lt m _ (by norm_num) hm) (by norm_num)

/-- Serializing a u32 big-endian and reading it back is reduction mod 2^32. -/
theorem u32_roundtrip (n : Nat) : u32FromBeBytes (u32ToBeBytes n) = n % 2 ^ 32 := by
  simp only [u32FromBeBytes, u32ToBeBytes, List.foldl]
  omega

/-- C1 counterexample: the TypeTag built by ChunkType::from_str("Rust") has
a lowercase byte 2; encoding a chunk created from it and decoding the
result fails with the chunk-type error (decode re-validates the tag with
the stricter reserved-bit rule), so the round-trip does not hold for every
TypeTag. -/
theorem c1_counterexample :
    ChunkType.from_str [82, 117, 115, 116] =
      some (Except.ok ⟨82, 117, 115, 116⟩) ∧
    Chunk.tryFrom (Chunk.new ⟨82, 117, 115, 116⟩ []).as_bytes =
      some (Except.error ChunkError.chunkTypeError) := by
  refine ⟨by decide, by decide⟩

/-- C1 amended: for every TypeTag whose byte 2 is ASCII uppercase and whose
4 bytes are all ASCII alphabetic (exactly the tags ChunkType::try_from
accepts), and every payload of u8 bytes with fewer than 2^32 - 8 bytes,
decoding the encoding of the created chunk succeeds and returns a chunk
with identical length, type, payload and checksum fields. -/
theorem c1_roundtrip_amended (t : ChunkType) (p : List Nat)
    (h2 : isAsciiUppercase t.c2 = true)
    (ha : t.bytes.all isAsciiAlphabetic = true)
    (hp : ∀ b ∈ p, b < 256)
    (hplen : 8 + p.length < 2 ^ 32) :
    Chunk.tryFrom (Chunk.new t p).as_bytes = some (Except.ok (Chunk.new t p)) := by
  have h32 : (2 : Nat) ^ 32 = 4294967296 := by norm_num
  have hplt : p.length < 2 ^ 32 := by rw [h32] at hplen ⊢; omega
  have hL : p.length % 2 ^ 32 = p.length := Nat.mod_eq_of_lt hplt
  have halpha_lt : ∀ x ∈ t.bytes, x < 256 := by
    intro x hx
    have hax : isAsciiAlphabetic x = true := by
      rw [List.all_eq_true] at ha
      exact ha x hx
    simp only [isAsciiAlphabetic, isAsciiUppercase, isAsciiLowercase,
      Bool.or_eq_true, Bool.and_eq_true, decide_eq_true_eq] at hax
    omega
  have hKlt : crc32 (t.bytes ++ p) < 2 ^ 32 := by
    refine crc32_lt _ fun b hb => ?_
    rcases List.mem_append.mp hb with hbt | hbp
    · calc b < 256 := halpha_lt b hbt
      _ < 2 ^ 32 := by norm_num
    · calc b < 256 := hp b hbp
      _ < 2 ^ 32 := by norm_num
  have hK : crc32 (t.bytes ++ p) % 2 ^ 32 = crc32 (t.bytes ++ p) :=
    Nat.mod_eq_of_lt hKlt
  have hE : (Chunk.new t p).as_bytes =
      u32ToBeBytes p.length ++
        (t.bytes ++ (p ++ u32ToBeBytes (crc32 (t.bytes ++ p)))) := by
    show u32ToBeBytes (p.length % 2 ^ 32) ++ t.bytes ++ p ++
        u32ToBeBytes (crc32 (t.bytes ++ p)) = _
    rw [hL]
    simp [List.append_assoc]
  rw [hE]
  have hAlen : (u32ToBeBytes p.length).length = 4 := rfl
  have hBlen : t.bytes.length = 4 := rfl
  have hClen : (u32ToBeBytes (crc32 (t.bytes ++ p))).length = 4 := rfl
  have htake4 : (u32ToBeBytes p.length ++
      (t.bytes ++ (p ++ u32ToBeBytes (crc32 (t.bytes ++ p))))).take 4 =
      u32ToBeBytes p.length := List.take_left' hAlen
  have hval4 : u32FromBeBytes ((u32ToBeBytes p.length ++
      (t.bytes ++ (p ++ u32ToBeBytes (crc32 (t.bytes ++ p))))).take 4) =
      p.length := by
    rw [htake4, u32_roundtrip, hL]
  have hdrop4 : (u32ToBeBytes p.length ++
      (t.bytes ++ (p ++ u32ToBeBytes (crc32 (t.bytes ++ p))))).drop 4 =
      t.bytes ++ (p ++ u32ToBeBytes (crc32 (t.bytes ++ p))) :=
    List.drop_left' hAlen
  have httype : ((u32ToBeBytes p.length ++
      (t.bytes ++ (p ++ u32ToBeBytes (crc32 (t.bytes ++ p))))).drop 4).take 4 =
      t.bytes := by
    rw [hdrop4]
    exact List.take_left' hBlen
  have ht : ChunkType.fromList (((u32ToBeBytes p.length ++
      (t.bytes ++ (p ++ u32ToBeBytes (crc32 (t.bytes ++ p))))).drop 4).take 4) =
      Except.ok t := by
    rw [httype]
    show ChunkType.tryFrom t.c0 t.c1 t.c2 t.c3 = Except.ok t
    rw [((tryFrom_cases t.c0 t.c1 t.c2 t.c3).2 h2).2 ha]
  have hVlen : (u32ToBeBytes p.length ++
      (t.bytes ++ (p ++ u32ToBeBytes (crc32 (t.bytes ++ p))))).length =
      12 + p.length := by
    simp only [List.length_append, hAlen, hBlen, hClen]
    omega
  have hlenhyp : 12 + u32FromBeBytes ((u32ToBeBytes p.length ++
      (t.bytes ++ (p ++ u32ToBeBytes (crc32 (t.bytes ++ p))))).take 4) ≤
      (u32ToBeBytes p.length ++
        (t.bytes ++ (p ++ u32ToBeBytes (crc32 (t.bytes ++ p))))).length := by
    rw [hval4, hVlen]
  have hwhyp : 8 + u32FromBeBytes ((u32ToBeBytes p.length ++
      (t.bytes ++ (p ++ u32ToBeBytes (crc32 (t.bytes ++ p))))).take 4) < 2 ^ 32 := by
    rw [hval4]
    exact hplen
  have hdec := tryFrom_decode _ t hlenhyp hwhyp ht
  rw [hval4] at hdec
  have hdropmid : (u32ToBeBytes p.length ++
      (t.bytes ++ (p ++ u32ToBeBytes (crc32 (t.bytes ++ p))))).drop (8 + p.length) =
      u32ToBeBytes (crc32 (t.bytes ++ p)) := by
    rw [show 8 + p.length = 4 + (4 + p.length) by omega, ← List.drop_drop, hdrop4,
      ← List.drop_drop, List.drop_left' hBlen, List.drop_left]
  have hcf : u32FromBeBytes (((u32ToBeBytes p.length ++
      (t.bytes ++ (p ++ u32ToBeBytes (crc32 (t.bytes ++ p))))).drop
        (8 + p.length)).take 4) = crc32 (t.bytes ++ p) := by
    rw [hdropmid, List.take_of_length_le (le_of_eq hClen), u32_roundtrip, hK]
  have hms : ((u32ToBeBytes p.length ++
      (t.bytes ++ (p ++ u32ToBeBytes (crc32 (t.bytes ++ p))))).drop 4).take
        (4 + p.length) = t.bytes ++ p := by
    rw [hdrop4, show (4 : Nat) + p.length = t.bytes.length + p.length by rw [hBlen],
      List.take_append, List.take_left]
  have hdata : ((u32ToBeBytes p.length ++
      (t.bytes ++ (p ++ u32ToBeBytes (crc32 (t.bytes ++ p))))).drop 8).take
        p.length = p := by
    rw [show (8 : Nat) = 4 + 4 by omega, ← List.drop_drop, hdrop4,
      List.drop_left' hBlen, List.take_left]
  rw [hdec, hcf, hms, if_neg (fun hne => hne rfl), hdata]
  have hnew : Chunk.new t p =
      { length := p.length, chunk_type := t, data := p,
        crc := crc32 (t.bytes ++ p) } := by
    simp only [Chunk.new]
    rw [hL]
  rw [hnew]

/-- C1 witness: the round-trip at the tag "RuSt" and payload "hello": the
decoded chunk is the created chunk. -/
theorem c1_roundtrip_witness :
    Chunk.tryFrom (Chunk.new ⟨82, 117, 83, 116⟩ [104, 101, 108, 108, 111]).as_bytes =
      some (Except.ok (Chunk.new ⟨82, 117, 83, 116⟩ [104, 101, 108, 108, 111])) :=
  c1_roundtrip_amended ⟨82, 117, 83, 116⟩ [104, 101, 108, 108, 111]
    (by decide) (by decide) (by decide) (by decide)

/-- C8: Chunk::try_from reads a 4-byte big-endian length, a 4-byte type tag,
exactly length payload bytes, and a 4-byte big-endian checksum, in that
order: any of those reads finding fewer bytes than required returns the
UnexpectedEof error (no panic); and when the buffer holds at least the
12 + length bytes of the record, decoding depends only on those bytes —
everything beyond them is ignored. -/
theorem c8_framing (value : List Nat) :
    (value.length < 8 →
      Chunk.tryFrom value = some (Except.error ChunkError.unexpectedEof)) ∧
    (∀ t, ChunkType.fromList ((value.drop 4).take 4) = Except.ok t →
      value.length < 12 + u32FromBeBytes (value.take 4) →
      Chunk.tryFrom value = some (Except.error ChunkError.unexpectedEof)) ∧
    (12 + u32FromBeBytes (value.take 4) ≤ value.length →
      Chunk.tryFrom value =
        Chunk.tryFrom (value.take (12 + u32FromBeBytes (value.take 4)))) := by
  have hshort : value.length < 8 →
      Chunk.tryFrom value = some (Except.error ChunkError.unexpectedEof) := by
    intro h
    by_cases h4 : value.length < 4
    · simp only [Chunk.tryFrom]
      rw [if_pos h4]
    · simp only [Chunk.tryFrom]
      rw [if_neg h4, if_pos h]
  refine ⟨hshort, fun t ht hlt => ?_, fun h12 => ?_⟩
  · by_cases h8 : value.length < 8
    · exact hshort h8
    · simp only [Chunk.tryFrom, ht]
      rw [if_neg (by omega : ¬value.length < 4), if_neg h8]
      by_cases h8l : value.length < 8 + u32FromBeBytes (value.take 4)
      · rw [if_pos h8l]
      · rw [if_neg h8l, if_pos hlt]
  · have e1 : (value.take (12 + u32FromBeBytes (value.take 4))).take 4 =
        value.take 4 := by
      rw [List.take_take, Nat.min_eq_left (by omega)]
    have e2 : ((value.take (12 + u32FromBeBytes (value.take 4))).drop 4).take 4 =
        (value.drop 4).take 4 := by
      rw [List.drop_take, List.take_take, Nat.min_eq_left (by omega)]
    have e3 : ((value.take (12 + u32FromBeBytes (value.take 4))).drop 8).take
        (u32FromBeBytes (value.take 4)) =
        (value.drop 8).take (u32FromBeBytes (value.take 4)) := by
      rw [List.drop_take, List.take_take, Nat.min_eq_left (by omega)]
    have e4 : ((value.take (12 + u32FromBeBytes (value.take 4))).drop
        (8 + u32FromBeBytes (value.take 4))).take 4 =
        (value.drop (8 + u32FromBeBytes (value.take 4))).take 4 := by
      rw [List.drop_take, List.take_take, Nat.min_eq_left (by omega)]
    have e5 : ((value.take (12 + u32FromBeBytes (value.take 4))).drop 4).take
        ((4 + 4 + u32FromBeBytes (value.take 4)) % 2 ^ 32 - 4) =
        (value.drop 4).take
          ((4 + 4 + u32FromBeBytes (value.take 4)) % 2 ^ 32 - 4) := by
      rw [List.drop_take, List.take_take, Nat.min_eq_left (by omega)]
    have hlenT : (value.take (12 + u32FromBeBytes (value.take 4))).length =
        12 + u32FromBeBytes (value.take 4) := by
      rw [List.length_take, Nat.min_eq_left h12]
    simp only [Chunk.tryFrom, e1, e2, e3, e4, e5, hlenT]
    rw [if_neg (show ¬value.length < 4 by omega),
      if_neg (show ¬12 + u32FromBeBytes (value.take 4) < 4 by omega),
      if_neg (show ¬value.length < 8 by omega),
      if_neg (show ¬12 + u32FromBeBytes (value.take 4) < 8 by omega)]
    rcases htype : ChunkType.fromList ((value.drop 4).take 4) with e | ct
    · rfl
    · dsimp only
      rw [if_neg (show ¬value.length < 8 + u32FromBeBytes (value.take 4) by omega),
        if_neg (show ¬12 + u32FromBeBytes (value.take 4) <
          8 + u32FromBeBytes (value.take 4) by omega),
        if_neg (show ¬value.length < 12 + u32FromBeBytes (value.take 4) by omega),
        if_neg (show ¬12 + u32FromBeBytes (value.take 4) <
          12 + u32FromBeBytes (value.take 4) by omega),
        if_neg (show ¬value.length <
          (4 + 4 + u32FromBeBytes (value.take 4)) % 2 ^ 32 by omega),
        if_neg (show ¬12 + u32FromBeBytes (value.take 4) <
          (4 + 4 + u32FromBeBytes (value.take 4)) % 2 ^ 32 by omega)]

/-- C8 witness: the conjuncts of c8_framing at concrete buffers: a 3-byte
buffer fails with UnexpectedEof; a buffer declaring length 1 but ending
after the type tag fails with UnexpectedEof; and a 12-byte empty-payload
record decodes the same with 3 junk bytes appended. -/
theorem c8_witness :
    Chunk.tryFrom [1, 2, 3] = some (Except.error ChunkError.unexpectedEof) ∧
    Chunk.tryFrom [0, 0, 0, 1, 82, 117, 83, 116] =
      some (Except.error ChunkError.unexpectedEof) ∧
    Chunk.tryFrom ([0, 0, 0, 0, 82, 117, 83, 116] ++ u32ToBeBytes 3565422908
        ++ [9, 9, 9]) =
      Chunk.tryFrom (([0, 0, 0, 0, 82, 117, 83, 116] ++ u32ToBeBytes 3565422908
        ++ [9, 9, 9]).take (12 + u32FromBeBytes (([0, 0, 0, 0, 82, 117, 83, 116]
        ++ u32ToBeBytes 3565422908 ++ [9, 9, 9]).take 4))) :=
  ⟨(c8_framing [1, 2, 3]).1 (by decide),
   (c8_framing [0, 0, 0, 1, 82, 117, 83, 116]).2.1 ⟨82, 117, 83, 116⟩
     (by decide) (by decide),
   (c8_framing ([0, 0, 0, 0, 82, 117, 83, 116] ++ u32ToBeBytes 3565422908
     ++ [9, 9, 9])).2.2 (by decide)⟩
